import Mathlib

set_option maxHeartbeats 1000000

/-!
Verification of the git-diff-apply repository against its natural-language
specification.  The subprocess runner (src/run.js) is embedded directly
from its source.  The merge workflow itself (the module exercised by
test/integration/index-test.js) is not present in the source tree, so it
is modelled from the specification, as noted on each such definition.
-/

namespace RunJs

/-- One event emitted by a spawned child process, as observed by the
listeners registered in src/run.js: a chunk of data on stdout, a chunk of
data on stderr, or the close event carrying an exit status. -/
inductive ChildEvent where
  | outData (s : String)
  | errData (s : String)
  | close (status : Int)
deriving DecidableEq, Repr

/-- Whether an event is the close event. -/
def isCloseEvent : ChildEvent → Bool
  | .close _ => true
  | _ => false

/-- State of the promise executor in `spawn` (src/run.js lines 22-40):
the accumulated stdout, the accumulated stderr, and the settled value of
the promise once a close event has fired (`Except.ok stdout` for
resolution, `Except.error message` for rejection). -/
structure SpawnAcc where
  stdout : String
  errorMessage : String
  settled : Option (Except String String)
deriving Repr

/-- The command string built on src/run.js line 16:
`[cmd, ...args].join(' ')`. -/
def spawnCommand (cmd : String) (args : List String) : String :=
  String.intercalate " " (cmd :: args)

/-- One step of the event handlers installed by `spawn` (src/run.js lines
26-39): stdout data is appended to `stdout`, stderr data is appended to
`errorMessage`, and the first close event settles the promise, resolving
with the buffered stdout when the status equals 0 and otherwise rejecting
with the message `command ++ " failed with message " ++ errorMessage`.
A promise settles at most once, so once `settled` is populated no later
event changes it. -/
def spawnStep (command : String) (acc : SpawnAcc) (e : ChildEvent) : SpawnAcc :=
  match e with
  | .outData d => { acc with stdout := acc.stdout ++ d }
  | .errData d => { acc with errorMessage := acc.errorMessage ++ d }
  | .close status =>
    match acc.settled with
    | some _ => acc
    | none =>
      if status = 0 then { acc with settled := some (Except.ok acc.stdout) }
      else
        let msg := command ++ " failed with message " ++ acc.errorMessage
        { acc with settled := some (Except.error msg) }

/-- The settled value of the promise returned by `spawn`, after the child
has emitted the given sequence of events. -/
def spawnEvents (cmd : String) (args : List String) (events : List ChildEvent) :
    Option (Except String String) :=
  (events.foldl (spawnStep (spawnCommand cmd args)) ⟨"", "", none⟩).settled

/-- The stdout accumulated by the `child.stdout.on` handler over a list of
events, starting from the buffer `a`. -/
def outAcc (a : String) : List ChildEvent → String
  | [] => a
  | .outData d :: t => outAcc (a ++ d) t
  | .errData _ :: t => outAcc a t
  | .close _ :: t => outAcc a t

/-- The stderr accumulated by the `child.stderr.on` handler over a list of
events, starting from the buffer `b`. -/
def errAcc (b : String) : List ChildEvent → String
  | [] => b
  | .errData d :: t => errAcc (b ++ d) t
  | .outData _ :: t => errAcc b t
  | .close _ :: t => errAcc b t

/-- The child process value returned by `child_process.spawn`, reduced to
the data this embedding tracks: a process id and the events the child
emits. -/
structure ChildHandle where
  pid : Nat
  events : List ChildEvent
deriving DecidableEq, Repr

/-- The value returned by `spawn` on src/run.js line 43:
`Object.assign(promise, child)` produces a single object that carries
both the promise (modelled by its settled value) and the child process's
own properties. -/
structure SpawnReturn where
  settled : Option (Except String String)
  child : ChildHandle
deriving Repr

/-- src/run.js lines 15-44: build the command string, spawn the child,
install the event handlers, and return the promise augmented with the
child's properties. -/
def spawn (cmd : String) (args : List String) (child : ChildHandle) : SpawnReturn :=
  { settled := spawnEvents cmd args child.events, child := child }

theorem foldl_spawnStep_no_close (command : String) (events : List ChildEvent)
    (h : ∀ e ∈ events, isCloseEvent e = false) (a b : String) :
    events.foldl (spawnStep command) ⟨a, b, none⟩ =
      ⟨outAcc a events, errAcc b events, none⟩ := by
  induction events generalizing a b with
  | nil => rfl
  | cons e t ih =>
    cases e with
    | outData d =>
      have ht : ∀ e ∈ t, isCloseEvent e = false := fun e he => h e (List.mem_cons_of_mem _ he)
      simpa [spawnStep, outAcc, errAcc] using ih ht (a ++ d) b
    | errData d =>
      have ht : ∀ e ∈ t, isCloseEvent e = false := fun e he => h e (List.mem_cons_of_mem _ he)
      simpa [spawnStep, outAcc, errAcc] using ih ht a (b ++ d)
    | close status =>
      have := h (.close status) (List.mem_cons_self _ _)
      simp [isCloseEvent] at this

theorem foldl_spawnStep_settled (command : String) (events : List ChildEvent)
    (acc : SpawnAcc) (r : Except String String) (h : acc.settled = some r) :
    (events.foldl (spawnStep command) acc).settled = some r := by
  induction events generalizing acc with
  | nil => exact h
  | cons e t ih =>
    cases e with
    | outData d => exact ih { acc with stdout := acc.stdout ++ d } h
    | errData d => exact ih { acc with errorMessage := acc.errorMessage ++ d } h
    | close status =>
      have hstep : spawnStep command acc (.close status) = acc := by
        simp [spawnStep, h]
      rw [List.foldl_cons, hstep]
      exact ih acc h

/-- Core computation of `spawn`'s promise: on the first close event the
promise settles, resolving with the buffered stdout exactly when the
status is 0 and rejecting otherwise with the command string followed by
the buffered stderr. -/
theorem spawnEvents_split (cmd : String) (args : List String)
    (pre post : List ChildEvent) (status : Int)
    (hpre : ∀ e ∈ pre, isCloseEvent e = false) :
    spawnEvents cmd args (pre ++ ChildEvent.close status :: post) =
      some (if status = 0 then Except.ok (outAcc "" pre)
            else Except.error
              (spawnCommand cmd args ++ " failed with message " ++ errAcc "" pre)) := by
  unfold spawnEvents
  rw [List.foldl_append, foldl_spawnStep_no_close _ _ hpre, List.foldl_cons]
  by_cases h0 : status = 0
  · have hstep :
        spawnStep (spawnCommand cmd args) ⟨outAcc "" pre, errAcc "" pre, none⟩
          (.close status) =
        ⟨outAcc "" pre, errAcc "" pre, some (Except.ok (outAcc "" pre))⟩ := by
      simp [spawnStep, h0]
    rw [hstep, foldl_spawnStep_settled _ _ _ _ rfl]
    simp [h0]
  · have hstep :
        spawnStep (spawnCommand cmd args) ⟨outAcc "" pre, errAcc "" pre, none⟩
          (.close status) =
        ⟨outAcc "" pre, errAcc "" pre,
          some (Except.error
            (spawnCommand cmd args ++ " failed with message " ++ errAcc "" pre))⟩ := by
      simp [spawnStep, h0]
    rw [hstep, foldl_spawnStep_settled _ _ _ _ rfl]
    simp [h0]

/-- Claim C8: for every invocation of the subprocess runner's
`spawn(cmd, args)`, the returned promise resolves with the full captured
standard output exactly when the child's close status equals 0, and
otherwise rejects with an Error carrying the captured standard error of
the child. -/
theorem spawn_resolves_iff_zero_status (cmd : String) (args : List String)
    (pre post : List ChildEvent) (status : Int)
    (hpre : ∀ e ∈ pre, isCloseEvent e = false) :
    spawnEvents cmd args (pre ++ ChildEvent.close status :: post) =
      some (if status = 0 then Except.ok (outAcc "" pre)
            else Except.error
              (spawnCommand cmd args ++ " failed with message " ++ errAcc "" pre)) :=
  spawnEvents_split cmd args pre post status hpre

theorem spawn_resolves_iff_zero_status_witness :
    spawnEvents "npm" ["install"]
        ([ChildEvent.outData "out", ChildEvent.errData "boom"] ++
          ChildEvent.close 1 :: []) =
      some (if (1 : Int) = 0 then
              Except.ok (outAcc "" [ChildEvent.outData "out", ChildEvent.errData "boom"])
            else Except.error
              (spawnCommand "npm" ["install"] ++ " failed with message " ++
                errAcc "" [ChildEvent.outData "out", ChildEvent.errData "boom"])) :=
  spawn_resolves_iff_zero_status "npm" ["install"]
    [ChildEvent.outData "out", ChildEvent.errData "boom"] [] 1 (by decide)

/-- Claim C10: the value returned by `spawn(cmd, args)` is the promise
augmented with the spawned child process's own properties, so a single
returned value is both awaitable for the buffered stdout and usable as a
handle to the live child process; and the rejection Error's message
embeds the command formed by joining `cmd` and `args` with single spaces,
followed by the buffered standard error. -/
theorem spawn_returns_augmented_promise (cmd : String) (args : List String)
    (child : ChildHandle) (pre post : List ChildEvent) (status : Int)
    (hev : child.events = pre ++ ChildEvent.close status :: post)
    (hpre : ∀ e ∈ pre, isCloseEvent e = false)
    (hstatus : status ≠ 0) :
    (spawn cmd args child).child = child ∧
    (spawn cmd args child).settled =
      some (Except.error
        (String.intercalate " " (cmd :: args) ++ " failed with message " ++
          errAcc "" pre)) := by
  refine ⟨rfl, ?_⟩
  show spawnEvents cmd args child.events = _
  rw [hev, spawnEvents_split cmd args pre post status hpre]
  simp [hstatus, spawnCommand]

theorem spawn_returns_augmented_promise_witness :
    (spawn "git" ["checkout", "foo"] ⟨42, [ChildEvent.errData "fatal: nope"] ++
        ChildEvent.close 128 :: []⟩).child =
      ⟨42, [ChildEvent.errData "fatal: nope"] ++ ChildEvent.close 128 :: []⟩ ∧
    (spawn "git" ["checkout", "foo"] ⟨42, [ChildEvent.errData "fatal: nope"] ++
        ChildEvent.close 128 :: []⟩).settled =
      some (Except.error
        (String.intercalate " " ("git" :: ["checkout", "foo"]) ++
          " failed with message " ++ errAcc "" [ChildEvent.errData "fatal: nope"])) :=
  spawn_returns_augmented_promise "git" ["checkout", "foo"]
    ⟨42, [ChildEvent.errData "fatal: nope"] ++ ChildEvent.close 128 :: []⟩
    [ChildEvent.errData "fatal: nope"] [] 128 rfl (by decide) (by decide)

end RunJs

namespace GitDiffApply

/-- A file tree: an association list from relative paths to file
contents. -/
abbrev Tree := List (String × String)

/-- Content of the file at path `p` in tree `t`, if present. -/
def lookupT (t : Tree) (p : String) : Option String :=
  (t.find? (fun e => e.1 = p)).map (fun e => e.2)

/-- The paths present in a tree. -/
def keysT (t : Tree) : List String :=
  t.map (fun e => e.1)

/-- Keep only the entries whose path is in `ps`. -/
def keepKeys (t : Tree) (ps : List String) : Tree :=
  t.filter (fun e => e.1 ∈ ps)

/-- Drop the entries whose path is in `ps`. -/
def dropKeys (t : Tree) (ps : List String) : Tree :=
  t.filter (fun e => e.1 ∉ ps)

/-- Overlay `top` over `base`: paths present in `top` take `top`'s
content, all other paths keep `base`'s content. -/
def overlayT (base top : Tree) : Tree :=
  dropKeys base (keysT top) ++ top

theorem lookupT_eq_none_of_not_mem {t : Tree} {p : String} (h : p ∉ keysT t) :
    lookupT t p = none := by
  unfold lookupT
  rw [List.find?_eq_none.2]
  · rfl
  · intro e he hd
    exact h (by simpa [keysT, of_decide_eq_true hd] using List.mem_map_of_mem Prod.fst he)

theorem mem_keysT_of_lookupT {t : Tree} {p : String} {c : String}
    (h : lookupT t p = some c) : p ∈ keysT t := by
  by_contra hn
  rw [lookupT_eq_none_of_not_mem hn] at h
  exact Option.noConfusion h

theorem lookupT_mem_values {t : Tree} {p c : String} (h : lookupT t p = some c) :
    c ∈ t.map (fun e => e.2) := by
  unfold lookupT at h
  cases hf : t.find? (fun e => decide (e.1 = p)) with
  | none => rw [hf] at h; exact Option.noConfusion h
  | some e =>
    rw [hf] at h
    have he : e ∈ t := List.mem_of_find?_eq_some hf
    have hc : e.2 = c := Option.some.inj h
    exact hc ▸ List.mem_map_of_mem _ he

theorem lookupT_append (a b : Tree) (p : String) :
    lookupT (a ++ b) p =
      match lookupT a p with
      | some c => some c
      | none => lookupT b p := by
  unfold lookupT
  rw [List.find?_append]
  cases h : a.find? (fun e => decide (e.1 = p)) <;> simp [Option.orElse]

theorem lookupT_cons (e : String × String) (t : Tree) (p : String) :
    lookupT (e :: t) p = if e.1 = p then some e.2 else lookupT t p := by
  unfold lookupT
  by_cases hp : e.1 = p
  · simp [List.find?_cons, hp]
  · simp [List.find?_cons, hp]

theorem not_mem_keysT_of_lookupT_none {t : Tree} {p : String}
    (h : lookupT t p = none) : p ∉ keysT t := by
  induction t with
  | nil => simp [keysT]
  | cons e t ih =>
    rw [lookupT_cons] at h
    by_cases hp : e.1 = p
    · rw [if_pos hp] at h
      exact Option.noConfusion h
    · rw [if_neg hp] at h
      simp only [keysT, List.map_cons, List.mem_cons]
      rintro (rfl | hm)
      · exact hp rfl
      · exact ih h hm

theorem lookupT_keepKeys (t : Tree) (ps : List String) (p : String) :
    lookupT (keepKeys t ps) p = if p ∈ ps then lookupT t p else none := by
  induction t with
  | nil => simp [keepKeys, lookupT]
  | cons e t ih =>
    simp only [keepKeys, List.filter_cons] at ih ⊢
    by_cases hmem : e.1 ∈ ps
    · rw [if_pos (by simpa using hmem), lookupT_cons, lookupT_cons]
      by_cases hp : e.1 = p
      · subst hp
        simp [hmem]
      · rw [if_neg hp, if_neg hp, ih]
    · rw [if_neg (by simpa using hmem), ih]
      by_cases hp : e.1 = p
      · subst hp
        rw [if_neg hmem, if_neg hmem]
      · rw [lookupT_cons, if_neg hp]

theorem lookupT_dropKeys (t : Tree) (ps : List String) (p : String) :
    lookupT (dropKeys t ps) p = if p ∈ ps then none else lookupT t p := by
  induction t with
  | nil => simp [dropKeys, lookupT]
  | cons e t ih =>
    simp only [dropKeys, List.filter_cons] at ih ⊢
    by_cases hmem : e.1 ∈ ps
    · rw [if_neg (by simpa using hmem), ih]
      by_cases hp : e.1 = p
      · subst hp
        rw [if_pos hmem, if_pos hmem]
      · rw [lookupT_cons, if_neg hp]
    · rw [if_pos (by simpa using hmem), lookupT_cons, lookupT_cons]
      by_cases hp : e.1 = p
      · subst hp
        simp [hmem]
      · rw [if_neg hp, if_neg hp, ih]

theorem lookupT_overlayT (base top : Tree) (p : String) :
    lookupT (overlayT base top) p =
      match lookupT top p with
      | some c => some c
      | none => lookupT base p := by
  unfold overlayT
  rw [lookupT_append, lookupT_dropKeys]
  cases htop : lookupT top p with
  | some c =>
    have : p ∈ keysT top := mem_keysT_of_lookupT htop
    simp [this, htop]
  | none =>
    have hmem : p ∉ keysT top := not_mem_keysT_of_lookupT_none htop
    rw [if_neg hmem]
    cases lookupT base p <;> rfl

/-- Modelled from the spec: the standard conflict-marker text left in a
file when merge-apply meets conflicting changes (section 4.5: files with
conflicting changes are left containing standard conflict markers,
beginning with a line marked HEAD for the local side). -/
def conflictMarkers (ours theirs : String) : String :=
  "<<<<<<< HEAD" ++ ("\n" ++ ours ++ "\n=======\n" ++ theirs ++ "\n>>>>>>> theirs\n")

/-- Modelled from the spec: the per-path outcome of merge-apply, for one
path of the diff artifact (sections 4.5 and 6 of the spec; the Patch
Applier itself is not in the source tree).  Inputs are the local content,
the start-snapshot content and the end-snapshot content; the output is
the resulting content together with the porcelain status code, if the
path appears in the final status: `M `, `A `, `D ` for clean
applications, `UU`, `AA`, `DU`, `UD` for conflicts. -/
def mergeFile : Option String → Option String → Option String →
    Option String × Option String
  | none, none, some ec => (some ec, some "A ")
  | some lc, none, some ec =>
    if lc = ec then (some lc, none)
    else (some (conflictMarkers lc ec), some "AA")
  | some lc, some sc, some ec =>
    if lc = sc then (some ec, some "M ")
    else if lc = ec then (some lc, none)
    else (some (conflictMarkers lc ec), some "UU")
  | some lc, some sc, none =>
    if lc = sc then (none, some "D ")
    else (some lc, some "UD")
  | none, some _, some ec => (some ec, some "DU")
  | none, some _, none => (none, none)
  | none, none, none => (none, none)
  | some lc, none, none => (some lc, none)

/-- Modelled from the spec: whether merge-apply meets conflicting changes
at a path, given the local, start-snapshot and end-snapshot contents
(section 4.5: both sides changed the same path in different ways). -/
def isConflicted : Option String → Option String → Option String → Prop
  | some lc, none, some ec => lc ≠ ec
  | some lc, some sc, some ec => sc ≠ ec ∧ lc ≠ sc ∧ lc ≠ ec
  | some lc, some sc, none => lc ≠ sc
  | none, some sc, some ec => sc ≠ ec
  | _, _, _ => False

instance (l s e : Option String) : Decidable (isConflicted l s e) :=
  match l, s, e with
  | some _, none, some _ => inferInstanceAs (Decidable (_ ≠ _))
  | some _, some _, some _ => inferInstanceAs (Decidable (_ ∧ _ ∧ _))
  | some _, some _, none => inferInstanceAs (Decidable (_ ≠ _))
  | none, some _, some _ => inferInstanceAs (Decidable (_ ≠ _))
  | none, none, some _ => inferInstanceAs (Decidable False)
  | none, none, none => inferInstanceAs (Decidable False)
  | some _, none, none => inferInstanceAs (Decidable False)
  | none, some _, none => inferInstanceAs (Decidable False)

/-- All candidate paths of a merge: the local tree's paths followed by
the two snapshots' paths. -/
def allPathsT (localTree snapStart snapEnd : Tree) : List String :=
  keysT localTree ++ keysT snapStart ++ keysT snapEnd

/-- Modelled from the spec: the content of one path after merge-apply.
Paths in `ignored` are excluded from the diff artifact and keep their
local content, as do paths the two snapshots agree on; every other path
takes the content computed by `mergeFile` (sections 3 and 4.5). -/
def mergedContent (localTree snapStart snapEnd : Tree) (ignored : List String)
    (p : String) : Option String :=
  if p ∈ ignored then lookupT localTree p
  else if lookupT snapStart p = lookupT snapEnd p then lookupT localTree p
  else (mergeFile (lookupT localTree p) (lookupT snapStart p) (lookupT snapEnd p)).1

/-- Modelled from the spec: the whole working tree after merge-apply,
assembled from `mergedContent` over all candidate paths. -/
def mergeResultTree (localTree snapStart snapEnd : Tree) (ignored : List String) :
    Tree :=
  (allPathsT localTree snapStart snapEnd).filterMap
    (fun p => (mergedContent localTree snapStart snapEnd ignored p).map
      (fun c => (p, c)))

/-- Modelled from the spec: the per-path porcelain status reported after
merge-apply (section 4.5), restricted to non-ignored paths of the diff
artifact. -/
def mergeStatus (localTree snapStart snapEnd : Tree) (ignored : List String) :
    List (String × String) :=
  (allPathsT localTree snapStart snapEnd).filterMap
    (fun p =>
      if p ∈ ignored then none
      else if lookupT snapStart p = lookupT snapEnd p then none
      else (mergeFile (lookupT localTree p) (lookupT snapStart p)
              (lookupT snapEnd p)).2.map (fun c => (p, c)))

theorem lookupT_filterMap_ofFn (f : String → Option String) (ps : List String)
    (p : String) :
    lookupT (ps.filterMap (fun q => (f q).map (fun c => (q, c)))) p =
      if p ∈ ps then f p else none := by
  induction ps with
  | nil => simp [lookupT]
  | cons q ps ih =>
    rw [List.filterMap_cons]
    cases hq : f q with
    | none =>
      simp only [Option.map_none']
      rw [ih]
      by_cases hp : p ∈ ps
      · rw [if_pos hp, if_pos (List.mem_cons_of_mem _ hp)]
      · rw [if_neg hp]
        by_cases hpq : p = q
        · subst hpq
          rw [if_pos (List.mem_cons_self _ _), hq]
        · rw [if_neg (by simp [hpq, hp])]
    | some c =>
      simp only [Option.map_some']
      rw [lookupT_cons]
      by_cases hpq : q = p
      · subst hpq
        rw [if_pos rfl, if_pos (List.mem_cons_self _ _), hq]
      · rw [if_neg hpq, ih]
        by_cases hp : p ∈ ps
        · rw [if_pos hp, if_pos (List.mem_cons_of_mem _ hp)]
        · rw [if_neg hp, if_neg (by simp [hp]; exact fun h => hpq h.symm)]

theorem lookupT_mergeResultTree (localTree snapStart snapEnd : Tree)
    (ignored : List String) (p : String) :
    lookupT (mergeResultTree localTree snapStart snapEnd ignored) p =
      mergedContent localTree snapStart snapEnd ignored p := by
  unfold mergeResultTree
  rw [lookupT_filterMap_ofFn]
  by_cases hp : p ∈ allPathsT localTree snapStart snapEnd
  · rw [if_pos hp]
  · rw [if_neg hp]
    unfold allPathsT at hp
    have hl : p ∉ keysT localTree :=
      fun h => hp (List.mem_append_left _ (List.mem_append_left _ h))
    have hs : p ∉ keysT snapStart :=
      fun h => hp (List.mem_append_left _ (List.mem_append_right _ h))
    have he : p ∉ keysT snapEnd := fun h => hp (List.mem_append_right _ h)
    unfold mergedContent
    rw [lookupT_eq_none_of_not_mem hl, lookupT_eq_none_of_not_mem hs,
      lookupT_eq_none_of_not_mem he]
    simp [mergeFile]

/-- Modelled from the spec: the observable state of the local repository
during a session of the merge workflow (the workflow module itself is not
in the source tree).  It records whether version-control metadata exists,
the process's current working directory, the checked-out branch, whether
the ephemeral scratch branch exists together with its committed tree, the
committed tree of the original branch, the staging index, and the working
tree (section 3, Data Model). -/
structure RepoState where
  isRepo : Bool
  cwd : String
  branch : String
  ephemeralExists : Bool
  ephCommitted : Tree
  origCommitted : Tree
  index : Tree
  tree : Tree
deriving DecidableEq, Repr

/-- Modelled from the spec: the working tree is clean when there are no
staged or unstaged changes to tracked files (section 4.1). -/
def isGitClean (s : RepoState) : Prop :=
  s.tree = s.origCommitted ∧ s.index = s.origCommitted

instance (s : RepoState) : Decidable (isGitClean s) :=
  inferInstanceAs (Decidable (_ ∧ _))

/-- Modelled from the spec: a repository state a session can validly start
from: under version control, clean, and with no leftover ephemeral
branch. -/
def readyState (s : RepoState) : Prop :=
  s.isRepo = true ∧ s.tree = s.origCommitted ∧ s.index = s.origCommitted ∧
    s.ephemeralExists = false ∧ s.ephCommitted = []

/-- Name of the ephemeral scratch branch created for staging snapshots. -/
def tmpBranchName : String := "git-diff-apply-scratch"

/-- Modelled from the spec: the configuration options of one invocation
(section 6, External Interfaces). -/
structure Options where
  startTag : String
  endTag : String
  ignoredFiles : List String
  reset : Bool
deriving DecidableEq, Repr

/-- Modelled from the spec: change the process's working directory
(section 9: the workflow changes the process's current directory to
operate relative to the repository root, and restores it). -/
def phChdir (d : String) (s : RepoState) : RepoState :=
  { s with cwd := d }

/-- Modelled from the spec: create the ephemeral orphan branch with no
shared history and check it out (section 4.4, step 2). -/
def phOrphan (s : RepoState) : RepoState :=
  { s with branch := tmpBranchName, ephemeralExists := true, ephCommitted := [] }

/-- Modelled from the spec: copy a snapshot's content onto the working
tree (section 4.4, step 3). -/
def phCopy (snap : Tree) (s : RepoState) : RepoState :=
  { s with tree := overlayT s.tree snap }

/-- Modelled from the spec: commit the working tree to the ephemeral
branch (section 4.4, step 3). -/
def phCommit (s : RepoState) : RepoState :=
  { s with ephCommitted := s.tree }

/-- Modelled from the spec: check out a branch whose committed tree is the
original branch's, restoring working tree and index from it (section 4.4,
step 4). -/
def phCheckout (b : String) (s : RepoState) : RepoState :=
  { s with branch := b, tree := s.origCommitted, index := s.origCommitted }

/-- Modelled from the spec: apply the diff artifact to the working tree in
merge-apply mode (section 4.5). -/
def phApply (snapStart snapEnd : Tree) (ignored : List String) (s : RepoState) :
    RepoState :=
  { s with tree := mergeResultTree s.tree snapStart snapEnd ignored }

/-- Modelled from the spec: delete the ephemeral branch (section 4.4,
step 4). -/
def phDeleteEph (s : RepoState) : RepoState :=
  { s with ephemeralExists := false, ephCommitted := [] }

/-- Modelled from the spec: reset-apply's removal step, dropping every
tracked path except the ignored ones from working tree and index
(section 4.5). -/
def phRemove (ignored : List String) (s : RepoState) : RepoState :=
  { s with tree := keepKeys s.tree ignored, index := keepKeys s.index ignored }

/-- Modelled from the spec: reset-apply's overlay step, copying the end
snapshot's content for non-ignored paths over the working tree
(section 4.5). -/
def phCopyReset (snapEnd : Tree) (ignored : List String) (s : RepoState) :
    RepoState :=
  { s with tree := overlayT s.tree (dropKeys snapEnd ignored) }

/-- Modelled from the spec: reset-apply stages everything as a flat
replacement (section 4.5). -/
def phStageAll (s : RepoState) : RepoState :=
  { s with index := s.tree }

/-- Modelled from the spec: the final reset-to-index step of reset-apply
mode, pointing the index back at the original branch's committed tree
(section 6, reset-to-index among the underlying commands). -/
def phGitReset (s : RepoState) : RepoState :=
  { s with index := s.origCommitted }

/-- Modelled from the spec: the ordered mutating phases of one session
(section 2, control flow; section 4.5 for reset-apply).  Merge-apply
stages the two snapshots on the ephemeral branch, restores the original
branch, applies the artifact and deletes the scratch branch; reset-apply
removes, overlays, stages and resets on the original branch. -/
def sessionPhases (remote : String → Tree) (opts : Options) (root : String)
    (origBranch cwd0 : String) : List (RepoState → RepoState) :=
  let snapStart := remote opts.startTag
  let snapEnd := remote opts.endTag
  if opts.reset then
    [phChdir root, phRemove opts.ignoredFiles,
     phCopyReset snapEnd opts.ignoredFiles, phStageAll, phGitReset, phChdir cwd0]
  else
    [phChdir root, phOrphan, phCopy snapStart, phCommit, phCopy snapEnd, phCommit,
     phCheckout origBranch, phApply snapStart snapEnd opts.ignoredFiles,
     phDeleteEph, phChdir cwd0]

/-- Number of mutating phases of a session in each mode. -/
def numPhases (opts : Options) : Nat :=
  if opts.reset then 6 else 10

/-- Run a list of phases in order. -/
def applyPhases (l : List (RepoState → RepoState)) (s : RepoState) : RepoState :=
  l.foldl (fun a f => f a) s

/-- The intermediate states after each executed phase. -/
def stateTrace : List (RepoState → RepoState) → RepoState → List RepoState
  | [], _ => []
  | f :: t, s => f s :: stateTrace t (f s)

/-- Modelled from the spec: the Rollback Manager's compensation (section
4.6): discard uncommitted working-tree changes, restore the original
branch, delete the ephemeral branch if it exists, and restore the
process's working directory. -/
def rollbackState (origBranch cwd0 : String) (s : RepoState) : RepoState :=
  let discarded := if s.branch = origBranch then s.origCommitted else s.ephCommitted
  let s1 := { s with tree := discarded, index := discarded }
  let s2 := { s1 with branch := origBranch, tree := s1.origCommitted, index := s1.origCommitted }
  let s3 := { s2 with ephemeralExists := false, ephCommitted := [] }
  { s3 with cwd := cwd0 }

/-- Modelled from the spec: the observable outcome of one session
(sections 6 and 7): the final per-path status on success, the
distinguished no-op, the two precondition failures, and a rolled-back
mutating-phase failure carrying the originating error's message. -/
inductive Outcome where
  | success (status : List (String × String))
  | nothingToApply
  | notARepository
  | dirtyWorkingTree
  | failed (msg : String)
deriving DecidableEq, Repr

/-- Modelled from the spec: the message surfaced on the error/diagnostic
channel for each non-success outcome (section 6, literal texts). -/
def errorMessage : Outcome → Option String
  | .success _ => none
  | .nothingToApply => some "Tags match, nothing to apply"
  | .notARepository => some "Not a git repository"
  | .dirtyWorkingTree => some "You must start with a clean working directory"
  | .failed m => some m

/-- Modelled from the spec: the final porcelain status after a successful
reset-apply: every path whose final content differs from the original
branch's committed content is listed, as a worktree modification,
deletion, or untracked addition (section 6, observable outcomes). -/
def resetStatus (orig fin : Tree) : List (String × String) :=
  (keysT orig ++ keysT fin).filterMap
    (fun p =>
      match lookupT orig p, lookupT fin p with
      | some a, some b => if a = b then none else some (p, " M")
      | some _, none => some (p, " D")
      | none, some _ => some (p, "??")
      | none, none => none)

/-- Modelled from the spec: the status returned by a successful session,
per mode. -/
def sessionStatus (remote : String → Tree) (opts : Options) (s0 : RepoState) :
    List (String × String) :=
  if opts.reset then
    resetStatus s0.origCommitted
      (overlayT (keepKeys s0.tree opts.ignoredFiles)
        (dropKeys (remote opts.endTag) opts.ignoredFiles))
  else
    mergeStatus s0.origCommitted (remote opts.startTag) (remote opts.endTag)
      opts.ignoredFiles

/-- Modelled from the spec: the mutating part of a session.  The
`inject` argument models a failure during a mutating phase, as the tests
of this repository do by stubbing the copy and run collaborators: when it
is `some (k, msg)`, the session fails with message `msg` after the first
`k` phases have taken effect, and the Rollback Manager undoes the
accumulated side effects before re-surfacing the message (section 4.6).
The result is the outcome, the final repository state, and the trace of
states after each executed phase. -/
def runMutating (remote : String → Tree) (opts : Options) (root : String)
    (inject : Option (Nat × String)) (s0 : RepoState) :
    Outcome × RepoState × List RepoState :=
  let phases := sessionPhases remote opts root s0.branch s0.cwd
  match inject with
  | some (k, msg) =>
    if k ≤ phases.length then
      (.failed msg, rollbackState s0.branch s0.cwd (applyPhases (phases.take k) s0),
        stateTrace (phases.take k) s0)
    else
      (.success (sessionStatus remote opts s0), applyPhases phases s0,
        stateTrace phases s0)
  | none =>
    (.success (sessionStatus remote opts s0), applyPhases phases s0,
      stateTrace phases s0)

/-- Modelled from the spec: one full session of the merge workflow
(section 2, control flow).  Precondition validation comes first: a
missing repository or a dirty working tree aborts before any mutation;
textually equal tags short-circuit to the distinguished no-op after
validation succeeds; otherwise the mutating phases run via
`runMutating`. -/
def runSession (remote : String → Tree) (opts : Options) (root : String)
    (inject : Option (Nat × String)) (s0 : RepoState) :
    Outcome × RepoState × List RepoState :=
  if s0.isRepo = false then (.notARepository, s0, [])
  else if ¬ isGitClean s0 then (.dirtyWorkingTree, s0, [])
  else if opts.startTag = opts.endTag then (.nothingToApply, s0, [])
  else runMutating remote opts root inject s0

theorem sessionPhases_preserve (remote : String → Tree) (opts : Options)
    (root b c : String) (f : RepoState → RepoState)
    (hf : f ∈ sessionPhases remote opts root b c) (s : RepoState) :
    (f s).isRepo = s.isRepo ∧ (f s).origCommitted = s.origCommitted := by
  unfold sessionPhases at hf
  by_cases hr : opts.reset
  · rw [if_pos hr] at hf
    simp only [List.mem_cons, List.not_mem_nil, or_false] at hf
    rcases hf with rfl | rfl | rfl | rfl | rfl | rfl <;>
      exact ⟨rfl, rfl⟩
  · rw [if_neg hr] at hf
    simp only [List.mem_cons, List.not_mem_nil, or_false] at hf
    rcases hf with rfl | rfl | rfl | rfl | rfl | rfl | rfl | rfl | rfl | rfl <;>
      exact ⟨rfl, rfl⟩

theorem applyPhases_preserve (l : List (RepoState → RepoState))
    (h : ∀ f ∈ l, ∀ s, (f s).isRepo = s.isRepo ∧ (f s).origCommitted = s.origCommitted)
    (s : RepoState) :
    (applyPhases l s).isRepo = s.isRepo ∧
      (applyPhases l s).origCommitted = s.origCommitted := by
  induction l generalizing s with
  | nil => exact ⟨rfl, rfl⟩
  | cons f t ih =>
    have h1 := h f (List.mem_cons_self _ _) s
    have h2 := ih (fun g hg => h g (List.mem_cons_of_mem _ hg)) (f s)
    exact ⟨h2.1.trans h1.1, h2.2.trans h1.2⟩

theorem rollbackState_eq (origBranch cwd0 : String) (s : RepoState) :
    rollbackState origBranch cwd0 s =
      ⟨s.isRepo, cwd0, origBranch, false, [], s.origCommitted, s.origCommitted,
        s.origCommitted⟩ :=
  rfl

theorem sessionPhases_length (remote : String → Tree) (opts : Options)
    (root b c : String) :
    (sessionPhases remote opts root b c).length = numPhases opts := by
  unfold sessionPhases numPhases
  by_cases hr : opts.reset <;> simp [hr]

theorem runMutating_inject (remote : String → Tree) (opts : Options) (root : String)
    (k : Nat) (msg : String) (s0 : RepoState)
    (hk : k ≤ (sessionPhases remote opts root s0.branch s0.cwd).length) :
    runMutating remote opts root (some (k, msg)) s0 =
      (.failed msg,
        rollbackState s0.branch s0.cwd
          (applyPhases ((sessionPhases remote opts root s0.branch s0.cwd).take k) s0),
        stateTrace ((sessionPhases remote opts root s0.branch s0.cwd).take k) s0) := by
  simp only [runMutating]
  rw [if_pos hk]

theorem runMutating_none (remote : String → Tree) (opts : Options) (root : String)
    (s0 : RepoState) :
    runMutating remote opts root none s0 =
      (.success (sessionStatus remote opts s0),
        applyPhases (sessionPhases remote opts root s0.branch s0.cwd) s0,
        stateTrace (sessionPhases remote opts root s0.branch s0.cwd) s0) := by
  simp only [runMutating]

/-- Claim C1: for every session that fails during a mutating phase, after
rollback the working tree is byte-identical to its pre-session state, the
checked-out branch equals the branch checked out before the session
started, and the originating error's message is re-surfaced to the caller
unchanged. -/
theorem failed_phase_rolls_back (remote : String → Tree) (opts : Options)
    (root : String) (s0 : RepoState) (k : Nat) (msg : String)
    (hready : readyState s0)
    (htags : opts.startTag ≠ opts.endTag)
    (hk : k ≤ numPhases opts) :
    ∃ tr, runSession remote opts root (some (k, msg)) s0 = (.failed msg, s0, tr) := by
  obtain ⟨hrepo, htree, hindex, heph, hephc⟩ := hready
  refine ⟨stateTrace ((sessionPhases remote opts root s0.branch s0.cwd).take k) s0, ?_⟩
  unfold runSession
  rw [if_neg (by simp [hrepo]),
    if_neg (not_not_intro ⟨htree, hindex⟩), if_neg htags]
  rw [runMutating_inject _ _ _ _ _ _ (by rw [sessionPhases_length]; exact hk)]
  have hpres := applyPhases_preserve
    ((sessionPhases remote opts root s0.branch s0.cwd).take k)
    (fun f hf => sessionPhases_preserve remote opts root s0.branch s0.cwd f
      (List.take_subset _ _ hf)) s0
  rw [rollbackState_eq, hpres.1, hpres.2]
  obtain ⟨isR, cw, br, ephE, ephC, orig, idx, tr⟩ := s0
  simp only at htree hindex heph hephc hrepo
  subst htree hindex heph hephc hrepo
  rfl

theorem failed_phase_rolls_back_witness :
    ∃ tr, runSession
        (fun t => if t = "v1" then [("a.txt", "one")] else [("a.txt", "three")])
        ⟨"v1", "v3", [], false⟩ "/repo"
        (some (3, "test copy failed"))
        ⟨true, "/repo", "foo", false, [], [("a.txt", "local")],
          [("a.txt", "local")], [("a.txt", "local")]⟩ =
      (.failed "test copy failed",
        ⟨true, "/repo", "foo", false, [], [("a.txt", "local")],
          [("a.txt", "local")], [("a.txt", "local")]⟩, tr) :=
  failed_phase_rolls_back
    (fun t => if t = "v1" then [("a.txt", "one")] else [("a.txt", "three")])
    ⟨"v1", "v3", [], false⟩ "/repo"
    ⟨true, "/repo", "foo", false, [], [("a.txt", "local")],
      [("a.txt", "local")], [("a.txt", "local")]⟩
    3 "test copy failed" (by constructor <;> simp) (by decide) (by decide)

/-- Claim C2: for every session where the start tag equals the end tag
textually, the workflow terminates right after precondition validation
with the distinguished non-error outcome reported as "Tags match, nothing
to apply", executes no mutating phase (no branch creation, snapshot or
patch application), and leaves the working tree and the checked-out
branch unchanged. -/
theorem tags_match_short_circuits (remote : String → Tree) (opts : Options)
    (root : String) (inject : Option (Nat × String)) (s0 : RepoState)
    (hrepo : s0.isRepo = true) (hclean : isGitClean s0)
    (htags : opts.startTag = opts.endTag) :
    runSession remote opts root inject s0 = (.nothingToApply, s0, []) ∧
      errorMessage Outcome.nothingToApply = some "Tags match, nothing to apply" := by
  refine ⟨?_, rfl⟩
  unfold runSession
  rw [if_neg (by simp [hrepo]),
    if_neg (not_not_intro hclean), if_pos htags]

theorem tags_match_short_circuits_witness :
    runSession (fun _ => [("a.txt", "three")]) ⟨"v3", "v3", [], false⟩ "/repo" none
        ⟨true, "/repo", "foo", false, [], [("a.txt", "local")],
          [("a.txt", "local")], [("a.txt", "local")]⟩ =
      (.nothingToApply,
        ⟨true, "/repo", "foo", false, [], [("a.txt", "local")],
          [("a.txt", "local")], [("a.txt", "local")]⟩, []) ∧
      errorMessage Outcome.nothingToApply = some "Tags match, nothing to apply" :=
  tags_match_short_circuits (fun _ => [("a.txt", "three")]) ⟨"v3", "v3", [], false⟩
    "/repo" none
    ⟨true, "/repo", "foo", false, [], [("a.txt", "local")],
      [("a.txt", "local")], [("a.txt", "local")]⟩
    rfl ⟨rfl, rfl⟩ rfl

/-- Claim C5: for every session started with modifications to tracked
files in the working tree, the workflow aborts before any mutation with
the message "You must start with a clean working directory" surfaced on
the error channel, and the dirty file is left untouched. -/
theorem dirty_tree_aborts (remote : String → Tree) (opts : Options)
    (root : String) (inject : Option (Nat × String)) (s0 : RepoState)
    (hrepo : s0.isRepo = true) (hdirty : ¬ isGitClean s0) :
    runSession remote opts root inject s0 = (.dirtyWorkingTree, s0, []) ∧
      errorMessage Outcome.dirtyWorkingTree =
        some "You must start with a clean working directory" ∧
      ∀ p, lookupT (runSession remote opts root inject s0).2.1.tree p =
        lookupT s0.tree p := by
  have h : runSession remote opts root inject s0 = (.dirtyWorkingTree, s0, []) := by
    unfold runSession
    rw [if_neg (by simp [hrepo]), if_pos hdirty]
  exact ⟨h, rfl, fun p => by rw [h]⟩

theorem dirty_tree_aborts_witness :
    runSession (fun _ => [("a.txt", "three")]) ⟨"v1", "v3", [], false⟩ "/repo" none
        ⟨true, "/repo", "foo", false, [], [("a.txt", "local")],
          [("a.txt", "local")], [("a.txt", "dirty edit")]⟩ =
      (.dirtyWorkingTree,
        ⟨true, "/repo", "foo", false, [], [("a.txt", "local")],
          [("a.txt", "local")], [("a.txt", "dirty edit")]⟩, []) ∧
      errorMessage Outcome.dirtyWorkingTree =
        some "You must start with a clean working directory" ∧
      ∀ p, lookupT (runSession (fun _ => [("a.txt", "three")])
          ⟨"v1", "v3", [], false⟩ "/repo" none
          ⟨true, "/repo", "foo", false, [], [("a.txt", "local")],
            [("a.txt", "local")], [("a.txt", "dirty edit")]⟩).2.1.tree p =
        lookupT [("a.txt", "dirty edit")] p :=
  dirty_tree_aborts (fun _ => [("a.txt", "three")]) ⟨"v1", "v3", [], false⟩
    "/repo" none
    ⟨true, "/repo", "foo", false, [], [("a.txt", "local")],
      [("a.txt", "local")], [("a.txt", "dirty edit")]⟩
    rfl (by intro h; exact absurd h.1 (by decide))

/-- Claim C9: for every session and every failure path, the failure is
reported on the error channel rather than escaping: the only outcome that
puts nothing on the error channel is success, so no failure can terminate
the process as an unreported (unhandled) rejection. -/
theorem no_unreported_failure (remote : String → Tree) (opts : Options)
    (root : String) (inject : Option (Nat × String)) (s0 : RepoState)
    (h : errorMessage (runSession remote opts root inject s0).1 = none) :
    ∃ st, (runSession remote opts root inject s0).1 = Outcome.success st := by
  cases hout : (runSession remote opts root inject s0).1 with
  | success st => exact ⟨st, rfl⟩
  | nothingToApply => rw [hout] at h; exact Option.noConfusion h
  | notARepository => rw [hout] at h; exact Option.noConfusion h
  | dirtyWorkingTree => rw [hout] at h; exact Option.noConfusion h
  | failed m => rw [hout] at h; exact Option.noConfusion h

theorem no_unreported_failure_witness :
    ∃ st, (runSession
        (fun t => if t = "v1" then [("a.txt", "one")] else [("a.txt", "three")])
        ⟨"v1", "v3", [], false⟩ "/repo" none
        ⟨true, "/repo", "foo", false, [], [("a.txt", "one")],
          [("a.txt", "one")], [("a.txt", "one")]⟩).1 = Outcome.success st :=
  no_unreported_failure
    (fun t => if t = "v1" then [("a.txt", "one")] else [("a.txt", "three")])
    ⟨"v1", "v3", [], false⟩ "/repo" none
    ⟨true, "/repo", "foo", false, [], [("a.txt", "one")],
      [("a.txt", "one")], [("a.txt", "one")]⟩
    (by rfl)

theorem runMutating_inject_gt (remote : String → Tree) (opts : Options) (root : String)
    (k : Nat) (msg : String) (s0 : RepoState)
    (hk : ¬ k ≤ (sessionPhases remote opts root s0.branch s0.cwd).length) :
    runMutating remote opts root (some (k, msg)) s0 =
      (.success (sessionStatus remote opts s0),
        applyPhases (sessionPhases remote opts root s0.branch s0.cwd) s0,
        stateTrace (sessionPhases remote opts root s0.branch s0.cwd) s0) := by
  simp only [runMutating]
  rw [if_neg hk]

theorem sessionFinal_cwd (remote : String → Tree) (opts : Options)
    (root b c : String) (s : RepoState) :
    (applyPhases (sessionPhases remote opts root b c) s).cwd = c := by
  unfold sessionPhases
  by_cases hr : opts.reset
  · rw [if_pos hr]
    simp [applyPhases, phChdir, phRemove, phCopyReset, phStageAll, phGitReset]
  · rw [if_neg hr]
    simp [applyPhases, phChdir, phOrphan, phCopy, phCommit, phCheckout, phApply,
      phDeleteEph]

/-- Claim C7: for every session, whether it ends in success, no-op, or
failure (including a failure while on the ephemeral scratch branch before
the original branch was restored), the process's current working
directory after the session equals its pre-session value. -/
theorem cwd_preserved (remote : String → Tree) (opts : Options) (root : String)
    (inject : Option (Nat × String)) (s0 : RepoState) :
    (runSession remote opts root inject s0).2.1.cwd = s0.cwd := by
  unfold runSession
  by_cases h1 : s0.isRepo = false
  · rw [if_pos h1]
  · rw [if_neg h1]
    by_cases h2 : isGitClean s0
    · rw [if_neg (not_not_intro h2)]
      by_cases h3 : opts.startTag = opts.endTag
      · rw [if_pos h3]
      · rw [if_neg h3]
        cases inject with
        | none =>
          rw [runMutating_none]
          exact sessionFinal_cwd remote opts root s0.branch s0.cwd s0
        | some km =>
          obtain ⟨k, msg⟩ := km
          by_cases hk : k ≤ (sessionPhases remote opts root s0.branch s0.cwd).length
          · rw [runMutating_inject _ _ _ _ _ _ hk]
            rfl
          · rw [runMutating_inject_gt _ _ _ _ _ _ hk]
            exact sessionFinal_cwd remote opts root s0.branch s0.cwd s0
    · rw [if_pos h2]

theorem sessionFinal_tree_reset (remote : String → Tree) (opts : Options)
    (root b c : String) (s : RepoState) (hr : opts.reset = true) :
    (applyPhases (sessionPhases remote opts root b c) s).tree =
      overlayT (keepKeys s.tree opts.ignoredFiles)
        (dropKeys (remote opts.endTag) opts.ignoredFiles) := by
  unfold sessionPhases
  rw [if_pos hr]
  simp [applyPhases, phChdir, phRemove, phCopyReset, phStageAll, phGitReset]

theorem sessionFinal_tree_merge (remote : String → Tree) (opts : Options)
    (root b c : String) (s : RepoState) (hr : opts.reset = false) :
    (applyPhases (sessionPhases remote opts root b c) s).tree =
      mergeResultTree s.origCommitted (remote opts.startTag) (remote opts.endTag)
        opts.ignoredFiles := by
  unfold sessionPhases
  rw [if_neg (by simp [hr])]
  simp [applyPhases, phChdir, phOrphan, phCopy, phCommit, phCheckout, phApply,
    phDeleteEph]

theorem lookupT_resetTree (localTree snapEnd : Tree) (ign : List String)
    (p : String) (hp : p ∉ ign) :
    lookupT (overlayT (keepKeys localTree ign) (dropKeys snapEnd ign)) p =
      lookupT snapEnd p := by
  rw [lookupT_overlayT, lookupT_dropKeys, if_neg hp]
  cases he : lookupT snapEnd p with
  | none => simp [lookupT_keepKeys, hp]
  | some c => rfl

/-- Claim C6: for every session and every path in the ignored set, the
path's local content after the session equals its content before, in both
merge-apply and reset-apply mode, on success, no-op and failure alike. -/
theorem ignored_paths_unchanged (remote : String → Tree) (opts : Options)
    (root : String) (inject : Option (Nat × String)) (s0 : RepoState) (p : String)
    (hp : p ∈ opts.ignoredFiles) :
    lookupT (runSession remote opts root inject s0).2.1.tree p =
      lookupT s0.tree p := by
  unfold runSession
  by_cases h1 : s0.isRepo = false
  · rw [if_pos h1]
  · rw [if_neg h1]
    by_cases h2 : isGitClean s0
    · have htree := h2.1
      rw [if_neg (not_not_intro h2)]
      by_cases h3 : opts.startTag = opts.endTag
      · rw [if_pos h3]
      · rw [if_neg h3]
        have hsuccess :
            lookupT (applyPhases (sessionPhases remote opts root s0.branch s0.cwd)
              s0).tree p = lookupT s0.tree p := by
          by_cases hr : opts.reset
          · rw [sessionFinal_tree_reset remote opts root s0.branch s0.cwd s0 hr]
            rw [lookupT_overlayT, lookupT_dropKeys, if_pos hp]
            rw [lookupT_keepKeys, if_pos hp]
          · rw [sessionFinal_tree_merge remote opts root s0.branch s0.cwd s0
              (by simpa using hr)]
            rw [lookupT_mergeResultTree]
            unfold mergedContent
            rw [if_pos hp, ← htree]
        cases inject with
        | none =>
          rw [runMutating_none]
          exact hsuccess
        | some km =>
          obtain ⟨k, msg⟩ := km
          by_cases hk : k ≤ (sessionPhases remote opts root s0.branch s0.cwd).length
          · rw [runMutating_inject _ _ _ _ _ _ hk]
            have hpres := applyPhases_preserve
              ((sessionPhases remote opts root s0.branch s0.cwd).take k)
              (fun f hf => sessionPhases_preserve remote opts root s0.branch s0.cwd f
                (List.take_subset _ _ hf)) s0
            show lookupT (rollbackState s0.branch s0.cwd _).tree p = _
            rw [rollbackState_eq]
            show lookupT (applyPhases _ s0).origCommitted p = _
            rw [hpres.2, ← htree]
          · rw [runMutating_inject_gt _ _ _ _ _ _ hk]
            exact hsuccess
    · rw [if_pos h2]

/-- Whether a character list contains the conflict-marker text
`<<<<<<< HEAD` at any position. -/
def hasMarkerChars : List Char → Bool
  | [] => false
  | c :: t => "<<<<<<< HEAD".data.isPrefixOf (c :: t) || hasMarkerChars t

/-- Whether a file content contains the conflict-marker text
`<<<<<<< HEAD`. -/
def hasMarker (s : String) : Bool :=
  hasMarkerChars s.data

theorem sessionTrace_staged (remote : String → Tree) (opts : Options)
    (root b c : String) (s0 : RepoState) (hr : opts.reset = true) :
    (stateTrace (sessionPhases remote opts root b c) s0).get? 3 =
      some (phStageAll (phCopyReset (remote opts.endTag) opts.ignoredFiles
        (phRemove opts.ignoredFiles (phChdir root s0)))) := by
  unfold sessionPhases
  rw [if_pos hr]
  rfl

/-- Claim C4: in reset-apply mode, for every session the final content of
every non-ignored path equals the end snapshot regardless of prior local
modifications, no conflict markers are produced, and during the session
the replacement is staged as a flat replacement of tracked content (the
staged state after the overlay step has index equal to working tree, with
the end snapshot's content at every non-ignored path). -/
theorem reset_apply_replaces_with_end_snapshot (remote : String → Tree)
    (opts : Options) (root : String) (s0 : RepoState)
    (hready : readyState s0) (hreset : opts.reset = true)
    (htags : opts.startTag ≠ opts.endTag)
    (hmark : ∀ p c, lookupT (remote opts.endTag) p = some c → hasMarker c = false) :
    ∃ st fin tr, runSession remote opts root none s0 = (.success st, fin, tr) ∧
      (∀ p, p ∉ opts.ignoredFiles →
        lookupT fin.tree p = lookupT (remote opts.endTag) p) ∧
      (∀ p c, p ∉ opts.ignoredFiles → lookupT fin.tree p = some c →
        hasMarker c = false) ∧
      (∃ stg, tr.get? 3 = some stg ∧ stg.index = stg.tree ∧
        ∀ p, p ∉ opts.ignoredFiles →
          lookupT stg.tree p = lookupT (remote opts.endTag) p) := by
  obtain ⟨hrepo, htree, hindex, heph, hephc⟩ := hready
  refine ⟨sessionStatus remote opts s0,
    applyPhases (sessionPhases remote opts root s0.branch s0.cwd) s0,
    stateTrace (sessionPhases remote opts root s0.branch s0.cwd) s0, ?_, ?_, ?_, ?_⟩
  · unfold runSession
    rw [if_neg (by simp [hrepo]), if_neg (not_not_intro ⟨htree, hindex⟩),
      if_neg htags, runMutating_none]
  · intro p hp
    rw [sessionFinal_tree_reset remote opts root s0.branch s0.cwd s0 hreset]
    exact lookupT_resetTree _ _ _ _ hp
  · intro p c hp hc
    rw [sessionFinal_tree_reset remote opts root s0.branch s0.cwd s0 hreset,
      lookupT_resetTree _ _ _ _ hp] at hc
    exact hmark p c hc
  · refine ⟨phStageAll (phCopyReset (remote opts.endTag) opts.ignoredFiles
      (phRemove opts.ignoredFiles (phChdir root s0))),
      sessionTrace_staged remote opts root s0.branch s0.cwd s0 hreset, rfl, ?_⟩
    intro p hp
    show lookupT (overlayT (keepKeys s0.tree opts.ignoredFiles)
      (dropKeys (remote opts.endTag) opts.ignoredFiles)) p = _
    exact lookupT_resetTree _ _ _ _ hp

theorem reset_apply_replaces_with_end_snapshot_witness :
    ∃ st fin tr, runSession
        (fun _ => [("a.txt", "three"), ("ig.txt", "r3")])
        ⟨"v1", "v3", ["ig.txt"], true⟩ "/repo" none
        ⟨true, "/repo", "foo", false, [], [("a.txt", "local"), ("ig.txt", "mine")],
          [("a.txt", "local"), ("ig.txt", "mine")],
          [("a.txt", "local"), ("ig.txt", "mine")]⟩ =
      (.success st, fin, tr) ∧
      (∀ p, p ∉ ["ig.txt"] →
        lookupT fin.tree p =
          lookupT [("a.txt", "three"), ("ig.txt", "r3")] p) ∧
      (∀ p c, p ∉ ["ig.txt"] → lookupT fin.tree p = some c →
        hasMarker c = false) ∧
      (∃ stg, tr.get? 3 = some stg ∧ stg.index = stg.tree ∧
        ∀ p, p ∉ ["ig.txt"] →
          lookupT stg.tree p =
            lookupT [("a.txt", "three"), ("ig.txt", "r3")] p) :=
  reset_apply_replaces_with_end_snapshot
    (fun _ => [("a.txt", "three"), ("ig.txt", "r3")])
    ⟨"v1", "v3", ["ig.txt"], true⟩ "/repo"
    ⟨true, "/repo", "foo", false, [], [("a.txt", "local"), ("ig.txt", "mine")],
      [("a.txt", "local"), ("ig.txt", "mine")],
      [("a.txt", "local"), ("ig.txt", "mine")]⟩
    ⟨rfl, rfl, rfl, rfl, rfl⟩ rfl (by decide)
    (by
      intro p c h
      have hm := lookupT_mem_values h
      simp only [List.map_cons, List.map_nil, List.mem_cons, List.not_mem_nil,
        or_false] at hm
      rcases hm with rfl | rfl <;> decide)

theorem ignored_paths_unchanged_witness :
    lookupT (runSession
        (fun t => if t = "v1" then [("a.txt", "one"), ("ig.txt", "r1")]
                  else [("a.txt", "three"), ("ig.txt", "r3")])
        ⟨"v1", "v3", ["ig.txt"], false⟩ "/repo" none
        ⟨true, "/repo", "foo", false, [], [("a.txt", "one"), ("ig.txt", "mine")],
          [("a.txt", "one"), ("ig.txt", "mine")],
          [("a.txt", "one"), ("ig.txt", "mine")]⟩).2.1.tree "ig.txt" =
      lookupT [("a.txt", "one"), ("ig.txt", "mine")] "ig.txt" :=
  ignored_paths_unchanged
    (fun t => if t = "v1" then [("a.txt", "one"), ("ig.txt", "r1")]
              else [("a.txt", "three"), ("ig.txt", "r3")])
    ⟨"v1", "v3", ["ig.txt"], false⟩ "/repo" none
    ⟨true, "/repo", "foo", false, [], [("a.txt", "one"), ("ig.txt", "mine")],
      [("a.txt", "one"), ("ig.txt", "mine")],
      [("a.txt", "one"), ("ig.txt", "mine")]⟩
    "ig.txt" (by decide)

theorem mergeStatus_mem (L S E : Tree) (ign : List String) (p c : String)
    (hpig : p ∉ ign) (hSE : lookupT S p ≠ lookupT E p)
    (hmem : p ∈ allPathsT L S E)
    (hmf : (mergeFile (lookupT L p) (lookupT S p) (lookupT E p)).2 = some c) :
    (p, c) ∈ mergeStatus L S E ign := by
  refine List.mem_filterMap.2 ⟨p, hmem, ?_⟩
  rw [if_neg hpig, if_neg hSE, hmf]
  rfl

theorem mergeResult_content (L S E : Tree) (ign : List String) (p : String)
    (hpig : p ∉ ign) (hSE : lookupT S p ≠ lookupT E p) :
    lookupT (mergeResultTree L S E ign) p =
      (mergeFile (lookupT L p) (lookupT S p) (lookupT E p)).1 := by
  rw [lookupT_mergeResultTree]
  unfold mergedContent
  rw [if_neg hpig, if_neg hSE]

/-- Claim C3: in merge-apply mode, when the diff conflicts with local
content the session completes without raising an error; every conflicted
non-ignored path is reported with one of the unmerged /
added-then-deleted status codes (UU, AA, DU, UD), and whenever the
conflicting versions exist both locally and in the end snapshot the file
is left containing the standard conflict markers starting with
"<<<<<<< HEAD". -/
theorem merge_conflicts_reported (remote : String → Tree) (opts : Options)
    (root : String) (s0 : RepoState)
    (hready : readyState s0) (hreset : opts.reset = false)
    (htags : opts.startTag ≠ opts.endTag) :
    ∃ st fin tr, runSession remote opts root none s0 = (.success st, fin, tr) ∧
      (∀ p, p ∉ opts.ignoredFiles →
        isConflicted (lookupT s0.tree p) (lookupT (remote opts.startTag) p)
          (lookupT (remote opts.endTag) p) →
        (∃ c, (p, c) ∈ st ∧ (c = "UU" ∨ c = "AA" ∨ c = "DU" ∨ c = "UD")) ∧
        (∀ lc ec, lookupT s0.tree p = some lc →
          lookupT (remote opts.endTag) p = some ec →
          ∃ rest, lookupT fin.tree p = some ("<<<<<<< HEAD" ++ rest))) := by
  obtain ⟨hrepo, htree, hindex, heph, hephc⟩ := hready
  refine ⟨sessionStatus remote opts s0,
    applyPhases (sessionPhases remote opts root s0.branch s0.cwd) s0,
    stateTrace (sessionPhases remote opts root s0.branch s0.cwd) s0, ?_, ?_⟩
  · unfold runSession
    rw [if_neg (by simp [hrepo]), if_neg (not_not_intro ⟨htree, hindex⟩),
      if_neg htags, runMutating_none]
  · intro p hpig hconf
    rw [htree] at hconf
    have hst : sessionStatus remote opts s0 =
        mergeStatus s0.origCommitted (remote opts.startTag) (remote opts.endTag)
          opts.ignoredFiles := by
      unfold sessionStatus
      rw [if_neg (by simp [hreset])]
    have hfin := sessionFinal_tree_merge remote opts root s0.branch s0.cwd s0 hreset
    rw [hst, hfin]
    rcases hl : lookupT s0.origCommitted p with _ | lc <;>
      rcases hs : lookupT (remote opts.startTag) p with _ | sc <;>
      rcases he : lookupT (remote opts.endTag) p with _ | ec <;>
      rw [hl, hs, he] at hconf <;>
      simp only [isConflicted] at hconf
    · -- locally deleted, remotely changed: DU
      have hSE : lookupT (remote opts.startTag) p ≠ lookupT (remote opts.endTag) p := by
        rw [hs, he]
        intro h
        exact hconf (Option.some.inj h)
      constructor
      · refine ⟨"DU", mergeStatus_mem _ _ _ _ _ _ hpig hSE
          (List.mem_append_left _ (List.mem_append_right _
            (mem_keysT_of_lookupT hs))) ?_, by simp⟩
        rw [hl, hs, he]
        rfl
      · intro lc' ec' hl' he'
        rw [htree, hl] at hl'
        exact Option.noConfusion hl'
    · -- both added with different content: AA
      have hSE : lookupT (remote opts.startTag) p ≠ lookupT (remote opts.endTag) p := by
        rw [hs, he]
        exact fun h => Option.noConfusion h
      constructor
      · refine ⟨"AA", mergeStatus_mem _ _ _ _ _ _ hpig hSE
          (List.mem_append_right _ (mem_keysT_of_lookupT he)) ?_, by simp⟩
        rw [hl, hs, he]
        simp [mergeFile, hconf]
      · intro lc' ec' hl' he'
        refine ⟨"\n" ++ lc ++ "\n=======\n" ++ ec ++ "\n>>>>>>> theirs\n", ?_⟩
        rw [mergeResult_content _ _ _ _ _ hpig hSE, hl, hs, he]
        simp [mergeFile, hconf, conflictMarkers]
    · -- locally changed, remotely deleted: UD
      have hSE : lookupT (remote opts.startTag) p ≠ lookupT (remote opts.endTag) p := by
        rw [hs, he]
        exact fun h => Option.noConfusion h
      constructor
      · refine ⟨"UD", mergeStatus_mem _ _ _ _ _ _ hpig hSE
          (List.mem_append_left _ (List.mem_append_right _
            (mem_keysT_of_lookupT hs))) ?_, by simp⟩
        rw [hl, hs, he]
        simp [mergeFile, hconf]
      · intro lc' ec' hl' he'
        exact Option.noConfusion he'
    · -- both changed with different content: UU
      obtain ⟨hsc, hlsc, hlec⟩ := hconf
      have hSE : lookupT (remote opts.startTag) p ≠ lookupT (remote opts.endTag) p := by
        rw [hs, he]
        intro h
        exact hsc (Option.some.inj h)
      constructor
      · refine ⟨"UU", mergeStatus_mem _ _ _ _ _ _ hpig hSE
          (List.mem_append_right _ (mem_keysT_of_lookupT he)) ?_, by simp⟩
        rw [hl, hs, he]
        simp [mergeFile, hlsc, hlec]
      · intro lc' ec' hl' he'
        refine ⟨"\n" ++ lc ++ "\n=======\n" ++ ec ++ "\n>>>>>>> theirs\n", ?_⟩
        rw [mergeResult_content _ _ _ _ _ hpig hSE, hl, hs, he]
        simp [mergeFile, hlsc, hlec, conflictMarkers]

theorem merge_conflicts_reported_witness :
    ∃ st fin tr, runSession
        (fun t => if t = "v1" then [("present-changed.txt", "base")]
                  else [("present-changed.txt", "theirs")])
        ⟨"v1", "v3", [], false⟩ "/repo" none
        ⟨true, "/repo", "foo", false, [], [("present-changed.txt", "mine")],
          [("present-changed.txt", "mine")], [("present-changed.txt", "mine")]⟩ =
      (.success st, fin, tr) ∧
      (∀ p, p ∉ ([] : List String) →
        isConflicted (lookupT [("present-changed.txt", "mine")] p)
          (lookupT ((fun t => if t = "v1" then [("present-changed.txt", "base")]
            else [("present-changed.txt", "theirs")]) "v1") p)
          (lookupT ((fun t => if t = "v1" then [("present-changed.txt", "base")]
            else [("present-changed.txt", "theirs")]) "v3") p) →
        (∃ c, (p, c) ∈ st ∧ (c = "UU" ∨ c = "AA" ∨ c = "DU" ∨ c = "UD")) ∧
        (∀ lc ec, lookupT [("present-changed.txt", "mine")] p = some lc →
          lookupT ((fun t => if t = "v1" then [("present-changed.txt", "base")]
            else [("present-changed.txt", "theirs")]) "v3") p = some ec →
          ∃ rest, lookupT fin.tree p = some ("<<<<<<< HEAD" ++ rest))) :=
  merge_conflicts_reported
    (fun t => if t = "v1" then [("present-changed.txt", "base")]
              else [("present-changed.txt", "theirs")])
    ⟨"v1", "v3", [], false⟩ "/repo"
    ⟨true, "/repo", "foo", false, [], [("present-changed.txt", "mine")],
      [("present-changed.txt", "mine")], [("present-changed.txt", "mine")]⟩
    ⟨rfl, rfl, rfl, rfl, rfl⟩ rfl (by decide)

end GitDiffApply
